import Mathlib

/-!
# Verification of the SoftFM streaming pipeline (src/main.cc)

Shallow embedding of the concurrent streaming pipeline of SoftFM:
the `DataBuffer` block queue, the delivery loop `write_output_data`,
and the per-iteration behaviour of the control loop in `main`
(warm-up block discard, audio level tracking, stereo-edge logging,
input backlog warning, output buffer sizing).

Blocking operations are embedded as follows: the body that runs once the
wait loop's guard is false becomes a pure state transformer, and the guard
itself becomes a separate Boolean (`pull_ready`, `wait_buffer_fill_blocked`)
that says whether the call returns without waiting.  Machine integers
(`size_t`, `unsigned int`) are modelled as `Nat`; `double` values entering
comparisons or arithmetic are modelled as `Rat`.
-/

/-! ## DataBuffer (src/main.cc lines 48-127)

State of `DataBuffer<Element>`: the pending blocks (front of the C++
`std::queue` is the head of the list), the running sample count `m_qlen`,
and the end marker `m_end_marked`. -/

structure DataBuffer (α : Type) where
  m_queue : List (List α)
  m_qlen : Nat
  m_end_marked : Bool
deriving DecidableEq, Repr

/-- The freshly constructed buffer: `m_qlen(0), m_end_marked(false)`. -/
def DataBuffer.init (α : Type) : DataBuffer α :=
  { m_queue := [], m_qlen := 0, m_end_marked := false }

/-- `DataBuffer::push`: if the block is non-empty, add its size to `m_qlen`
and append it to the tail of the queue; an empty block does nothing. -/
def DataBuffer.push {α : Type} (s : DataBuffer α) (samples : List α) : DataBuffer α :=
  if samples.isEmpty then s
  else
    { m_queue := s.m_queue ++ [samples]
      m_qlen := s.m_qlen + samples.length
      m_end_marked := s.m_end_marked }

/-- `DataBuffer::push_end`: set the end marker. -/
def DataBuffer.push_end {α : Type} (s : DataBuffer α) : DataBuffer α :=
  { s with m_end_marked := true }

/-- `DataBuffer::queued_samples`: snapshot of `m_qlen`. -/
def DataBuffer.queued_samples {α : Type} (s : DataBuffer α) : Nat :=
  s.m_qlen

/-- Negation of the guard of the wait loop inside `DataBuffer::pull`
(`while (m_queue.empty() && !m_end_marked) wait`): `pull` returns without
waiting iff the queue is non-empty or the end marker is set. -/
def DataBuffer.pull_ready {α : Type} (s : DataBuffer α) : Bool :=
  !s.m_queue.isEmpty || s.m_end_marked

/-- Body of `DataBuffer::pull` once its wait loop has exited: if the queue is
non-empty, subtract the front block's size from `m_qlen`, pop it and return
it; otherwise (end marker reached) return the empty vector and leave the
state unchanged. -/
def DataBuffer.pull {α : Type} (s : DataBuffer α) : List α × DataBuffer α :=
  match s.m_queue with
  | [] => ([], s)
  | b :: rest =>
      (b, { m_queue := rest, m_qlen := s.m_qlen - b.length, m_end_marked := s.m_end_marked })

/-- `DataBuffer::pull_end_reached`: `m_qlen == 0 && m_end_marked`. -/
def DataBuffer.pull_end_reached {α : Type} (s : DataBuffer α) : Bool :=
  decide (s.m_qlen = 0) && s.m_end_marked

/-- Guard of the wait loop of `DataBuffer::wait_buffer_fill`
(`while (m_qlen < minfill && !m_end_marked) wait`): the call blocks iff this
is `true`, and returns immediately iff it is `false`. -/
def DataBuffer.wait_buffer_fill_blocked {α : Type} (s : DataBuffer α) (minfill : Nat) : Bool :=
  decide (s.m_qlen < minfill) && !s.m_end_marked

/-- Push a whole list of blocks in order (iterated `DataBuffer::push`). -/
def DataBuffer.push_all {α : Type} (s : DataBuffer α) (bs : List (List α)) : DataBuffer α :=
  bs.foldl DataBuffer.push s

/-- Perform `n` successive `pull` calls, collecting the returned blocks in
order together with the final state. -/
def DataBuffer.pulls {α : Type} : Nat → DataBuffer α → List (List α) × DataBuffer α
  | 0, s => ([], s)
  | n + 1, s =>
      let p := s.pull
      let q := DataBuffer.pulls n p.2
      (p.1 :: q.1, q.2)

/-! ## Operation traces over a DataBuffer (for reachable-state invariants)

The five public operations of `DataBuffer`.  `queued_samples` and
`pull_end_reached` are read-only; `pull` steps to the state left behind by
the body of `DataBuffer::pull` (a `pull` that finds the queue empty leaves
the state unchanged). -/

inductive BufferOp (α : Type) where
  | push (b : List α)
  | pull
  | push_end
  | queued_samples
  | pull_end_reached
deriving DecidableEq, Repr

/-- Effect of one operation on the buffer state. -/
def DataBuffer.step {α : Type} (s : DataBuffer α) : BufferOp α → DataBuffer α
  | BufferOp.push b => s.push b
  | BufferOp.pull => s.pull.2
  | BufferOp.push_end => s.push_end
  | BufferOp.queued_samples => s
  | BufferOp.pull_end_reached => s

/-- The state reached from a fresh buffer by a sequence of operations. -/
def DataBuffer.run {α : Type} (ops : List (BufferOp α)) : DataBuffer α :=
  ops.foldl DataBuffer.step (DataBuffer.init α)

/-! ## Delivery loop (src/main.cc lines 170-195, `write_output_data`)

One consumer draining the output buffer with no concurrent producer, as in
the shutdown phase after `main` has pushed the end marker.  `stop n` is the
value of `stop_flag.load()` observed at the top of iteration `n`.  The
result is `some (written, final)` when the loop exits, collecting in order
every block handed to `AudioOutput::write`; it is `none` when the loop is
parked forever inside `wait_buffer_fill` (no producer will ever wake it) or
when the fuel runs out. -/

def write_output_data {α : Type} (stop : Nat → Bool) (minfill : Nat) :
    Nat → DataBuffer α → Option (List (List α) × DataBuffer α)
  | 0, _ => none
  | fuel + 1, s =>
      if stop 0 then some ([], s)
      else if decide (s.queued_samples = 0) && s.wait_buffer_fill_blocked minfill then none
      else if s.pull_end_reached then some ([], s)
      else
        let p := s.pull
        match write_output_data (fun n => stop (n + 1)) minfill fuel p.2 with
        | none => none
        | some q => some (p.1 :: q.1, q.2)

/-! ## Control loop (src/main.cc lines 471-543, `main`)

The delivery decisions of the main loop, run against the ordered list of
blocks available from the (closed) source buffer.  `stop n` is the value of
`stop_flag.load()` at the top of iteration `n` (`block == n`); `process`
is the opaque demodulation collaborator composed with the subsequent gain
adjustment.  The result lists, in order, the audio blocks handed on (pushed
to the output buffer, or written directly to the sink): the block produced
at `block == 0` is thrown away, and the loop breaks on the first empty pull
(end of stream) or on an observed stop flag. -/

def main_loop {I S : Type} (stop : Nat → Bool) (process : List I → List S) :
    Nat → List (List I) → List (List S)
  | _, [] => []
  | block, iq :: rest =>
      if stop block then []
      else if iq.isEmpty then []
      else (if 0 < block then [process iq] else []) ++ main_loop stop process (block + 1) rest

/-- `adjust_gain` (src/main.cc lines 130-136): multiply every sample by the
gain. -/
def adjust_gain (samples : List Rat) (gain : Rat) : List Rat :=
  samples.map fun x => x * gain

/-- Audio level measurement of one control iteration (src/main.cc lines
495-500): measure the rms of the freshly demodulated block, fold it into the
tracker with `audio_level = 0.95 * audio_level + 0.05 * audio_rms`, and only
then apply `adjust_gain(audiosamples, 0.5)`.  `rms` stands for the
`samples_mean_rms` collaborator (declared in SoftFM.h, defined outside this
file), kept opaque. -/
def control_audio_step (rms : List Rat → Rat) (audio_level : Rat) (audiosamples : List Rat) :
    Rat × List Rat :=
  let audio_rms := rms audiosamples
  let next_level := 0.95 * audio_level + 0.05 * audio_rms
  (next_level, adjust_gain audiosamples 0.5)

/-- The audio level tracker after `n` control iterations whose successive
rms measurements are `rs 0, rs 1, ...`; it starts at `audio_level = 0`
(src/main.cc line 473). -/
def audio_level_after (rs : Nat → Rat) : Nat → Rat
  | 0 => 0
  | n + 1 => 0.95 * audio_level_after rs n + 0.05 * rs n

/-- Stereo-edge logging (src/main.cc lines 520-527): starting from the
current `got_stereo` value, emit one event per iteration whose
`fm.stereo_detected()` value differs from `got_stereo`, updating
`got_stereo` to the new value; the event records the new value (`true` =
"got stereo signal", `false` = "lost stereo signal"). -/
def stereo_log_events (got_stereo : Bool) : List Bool → List Bool
  | [] => []
  | s :: rest =>
      if s != got_stereo then s :: stereo_log_events s rest
      else stereo_log_events got_stereo rest

/-- The spec's description of the same stream: one event per position whose
value differs from the previous iteration's observed value, the value before
the first iteration being `false`. -/
def stereo_edges_spec (seq : List Bool) : List Bool :=
  (seq.zip (false :: seq)).filterMap fun p => if p.1 != p.2 then some p.1 else none

/-- The backlog test of one control iteration (src/main.cc lines 480-481):
`source_buffer.queued_samples() > 10 * ifrate`, the `size_t` count compared
against the `double` rate. -/
def inbuf_backlog (ifrate : Rat) (queued : Nat) : Bool :=
  decide ((queued : Rat) > 10 * ifrate)

/-- The backlog warnings emitted over a run of the control loop whose
successive `queued_samples()` observations are the given list, threaded
through the `inbuf_length_warning` latch (src/main.cc lines 472, 480-485):
entry `n` is `true` iff iteration `n` printed the warning. -/
def inbuf_warning_emits (ifrate : Rat) : Bool → List Nat → List Bool
  | _, [] => []
  | inbuf_length_warning, q :: rest =>
      let fire := !inbuf_length_warning && inbuf_backlog ifrate q
      fire :: inbuf_warning_emits ifrate (inbuf_length_warning || fire) rest

/-! ## Output buffer sizing (src/main.cc lines 264, 419-432, 460-469) -/

inductive OutputMode where
  | MODE_RAW
  | MODE_WAV
  | MODE_ALSA
deriving DecidableEq, Repr

/-- Number of samples in the audio buffer (src/main.cc lines 419-428):
one second (`pcmrate`) by default for interactive outputs when no `-b`
was given (`bufsecs < 0`), else `(unsigned int)(bufsecs * pcmrate)` when
`bufsecs > 0`, else `0`. -/
def outputbuf_samples (bufsecs : Rat) (outmode : OutputMode) (filename : String)
    (pcmrate : Nat) : Nat :=
  if bufsecs < 0 ∧ (outmode = OutputMode.MODE_ALSA ∨
      (outmode = OutputMode.MODE_RAW ∧ filename = "-")) then
    pcmrate
  else if bufsecs > 0 then (bufsecs * (pcmrate : Rat)).floor.toNat
  else 0

/-- `nchannel = stereo ? 2 : 1` (src/main.cc lines 464, 512). -/
def nchannel (stereo : Bool) : Nat :=
  if stereo then 2 else 1

/-- The minimum-fill handed to the output thread (src/main.cc line 468):
`outputbuf_samples * nchannel`. -/
def buf_minfill (outputbuf : Nat) (nch : Nat) : Nat :=
  outputbuf * nch

/-- Output buffering (and hence the delivery thread) is active iff
`outputbuf_samples > 0` (src/main.cc lines 463, 534). -/
def buffering_enabled (outputbuf : Nat) : Bool :=
  decide (0 < outputbuf)

/-- The internal consistency of a buffer: the running count is the sum of
the queued block lengths, and no queued block is empty (only `push` of a
non-empty block enqueues). -/
def buffer_inv {α : Type} (s : DataBuffer α) : Prop :=
  s.m_qlen = (s.m_queue.map List.length).sum ∧ ∀ b ∈ s.m_queue, b ≠ []

/-! ## Basic lemmas about DataBuffer -/

theorem DataBuffer.push_nonempty {α : Type} (s : DataBuffer α) (b : List α) (hb : b ≠ []) :
    s.push b =
      { m_queue := s.m_queue ++ [b], m_qlen := s.m_qlen + b.length,
        m_end_marked := s.m_end_marked } := by
  unfold DataBuffer.push
  simp [List.isEmpty_iff, hb]

/-- Pushing a list of non-empty blocks appends them to the queue and adds the
sum of their lengths to the running count, leaving the end marker alone. -/
theorem DataBuffer.push_all_spec {α : Type} (bs : List (List α)) (hbs : ∀ b ∈ bs, b ≠ []) :
    ∀ s : DataBuffer α,
      s.push_all bs =
        { m_queue := s.m_queue ++ bs,
          m_qlen := s.m_qlen + (bs.map List.length).sum,
          m_end_marked := s.m_end_marked } := by
  induction bs with
  | nil => intro s; simp [DataBuffer.push_all]
  | cons b rest ih =>
      intro s
      have hb : b ≠ [] := hbs b (by simp)
      have hrest : ∀ x ∈ rest, x ≠ [] := fun x hx => hbs x (by simp [hx])
      have h1 : (b :: rest).foldl DataBuffer.push s = rest.foldl DataBuffer.push (s.push b) := by
        simp [List.foldl_cons]
      calc s.push_all (b :: rest)
          = (s.push b).push_all rest := by simp [DataBuffer.push_all, h1]
        _ = _ := by
            rw [ih hrest (s.push b), DataBuffer.push_nonempty s b hb]
            simp [add_assoc]

/-- Draining a buffer whose queue holds `bs`: `bs.length` pulls return the
blocks of `bs` in order, empty the queue, and lower `m_qlen` by the sum of
the block lengths, leaving the end marker alone. -/
theorem DataBuffer.pulls_drain {α : Type} :
    ∀ (bs : List (List α)) (q : Nat) (e : Bool),
      DataBuffer.pulls bs.length ⟨bs, q, e⟩ =
        (bs, ⟨[], q - (bs.map List.length).sum, e⟩)
  | [], q, e => by simp [DataBuffer.pulls]
  | b :: rest, q, e => by
      have ih := DataBuffer.pulls_drain rest (q - b.length) e
      simp [DataBuffer.pulls, DataBuffer.pull, ih, Nat.sub_sub]

/-- `pulls` splits over an addition of counts. -/
theorem DataBuffer.pulls_add {α : Type} (m n : Nat) :
    ∀ s : DataBuffer α,
      DataBuffer.pulls (m + n) s =
        ((DataBuffer.pulls m s).1 ++ (DataBuffer.pulls n (DataBuffer.pulls m s).2).1,
          (DataBuffer.pulls n (DataBuffer.pulls m s).2).2) := by
  induction m with
  | zero => intro s; simp [DataBuffer.pulls]
  | succ m ih =>
      intro s
      have h : m + 1 + n = (m + n) + 1 := by omega
      rw [h]
      simp only [DataBuffer.pulls, ih]
      simp

/-- C1: pushing any sequence of non-empty blocks into a fresh `DataBuffer`
and then marking the end makes the following pulls return exactly those
blocks, in order, followed by the empty end-of-stream sentinel; afterwards
`pull_end_reached` is `true`, and the total number of elements seen across
the pulls equals the sum of the pushed block lengths. -/
theorem push_close_pull_fifo {α : Type} (bs : List (List α))
    (hbs : ∀ b ∈ bs, b ≠ []) :
    (((DataBuffer.init α).push_all bs).push_end.pulls (bs.length + 1)).1 = bs ++ [[]] ∧
    (((DataBuffer.init α).push_all bs).push_end.pulls (bs.length + 1)).2.pull_end_reached
      = true ∧
    (((((DataBuffer.init α).push_all bs).push_end.pulls (bs.length + 1)).1.map
        List.length).sum = (bs.map List.length).sum) := by
  have hstate : ((DataBuffer.init α).push_all bs).push_end =
      ⟨bs, (bs.map List.length).sum, true⟩ := by
    rw [DataBuffer.push_all_spec bs hbs (DataBuffer.init α)]
    simp [DataBuffer.init, DataBuffer.push_end]
  have hdrain := DataBuffer.pulls_drain bs ((bs.map List.length).sum) true
  have hlast : DataBuffer.pulls 1 (⟨[], (bs.map List.length).sum - (bs.map List.length).sum,
      true⟩ : DataBuffer α) = ([[]], ⟨[], 0, true⟩) := by
    simp [DataBuffer.pulls, DataBuffer.pull]
  rw [hstate, DataBuffer.pulls_add bs.length 1, hdrain]
  simp only [hlast]
  refine ⟨trivial, ?_, ?_⟩ <;> simp [DataBuffer.pull_end_reached]

/-- Concrete run of `push_close_pull_fifo`: Scenario A,
`push([1,2,3]); push([4,5]); close()` pulls back `[1,2,3]`, `[4,5]`,
then the sentinel, reaching the drained-and-closed state with five elements
seen. -/
theorem push_close_pull_fifo_witness :
    (((DataBuffer.init Int).push_all [[1, 2, 3], [4, 5]]).push_end.pulls 3).1
        = [[1, 2, 3], [4, 5], []] ∧
    (((DataBuffer.init Int).push_all [[1, 2, 3], [4, 5]]).push_end.pulls 3).2.pull_end_reached
        = true ∧
    ((((DataBuffer.init Int).push_all [[1, 2, 3], [4, 5]]).push_end.pulls 3).1.map
        List.length).sum = ([[1, 2, 3], [4, 5]].map List.length).sum :=
  push_close_pull_fifo [[1, 2, 3], [4, 5]] (by decide)

/-- C7: the guard of `wait_buffer_fill` is already false - the call returns
without waiting - whenever the running count has reached `minfill` (even
with no end marker), and whenever the end marker is set (whatever `minfill`
and the current count are). -/
theorem wait_buffer_fill_returns {α : Type} (s : DataBuffer α) (minfill : Nat) :
    (minfill ≤ s.m_qlen → s.wait_buffer_fill_blocked minfill = false) ∧
    (s.m_end_marked = true → s.wait_buffer_fill_blocked minfill = false) := by
  constructor
  · intro h
    simp [DataBuffer.wait_buffer_fill_blocked, Nat.not_lt.mpr h]
  · intro h
    simp [DataBuffer.wait_buffer_fill_blocked, h]

/-- Concrete run of `wait_buffer_fill_returns`: a buffer holding two samples
satisfies a `minfill` of two though not closed, and a closed empty buffer
satisfies a `minfill` of seven. -/
theorem wait_buffer_fill_returns_witness :
    (⟨[[5, 6]], 2, false⟩ : DataBuffer Int).wait_buffer_fill_blocked 2 = false ∧
    (⟨[], 0, true⟩ : DataBuffer Int).wait_buffer_fill_blocked 7 = false :=
  ⟨(wait_buffer_fill_returns ⟨[[5, 6]], 2, false⟩ 2).1 (by decide),
   (wait_buffer_fill_returns ⟨[], 0, true⟩ 7).2 rfl⟩

/-- C9: pushing an empty block is a no-op: the queue contents, the running
count and the end marker are all left unchanged, for every buffer state. -/
theorem push_empty_noop {α : Type} (s : DataBuffer α) : s.push [] = s := by
  simp [DataBuffer.push]

/-- Each operation preserves the buffer's internal consistency. -/
theorem DataBuffer.step_preserves_inv {α : Type} (s : DataBuffer α) (op : BufferOp α)
    (h : buffer_inv s) : buffer_inv (s.step op) := by
  obtain ⟨hlen, hne⟩ := h
  cases op with
  | push b =>
      by_cases hb : b = []
      · simpa [DataBuffer.step, DataBuffer.push, hb] using ⟨hlen, hne⟩
      · rw [DataBuffer.step, DataBuffer.push_nonempty s b hb]
        constructor
        · simp [hlen]
        · intro x hx
          rcases List.mem_append.mp hx with hx1 | hx2
          · exact hne x hx1
          · simp at hx2; rw [hx2]; exact hb
  | pull =>
      cases hq : s.m_queue with
      | nil => simpa [DataBuffer.step, DataBuffer.pull, hq] using ⟨hlen, hne⟩
      | cons b rest =>
          constructor
          · simp [DataBuffer.step, DataBuffer.pull, hq, hlen]
          · intro x hx
            apply hne
            rw [hq]
            simp [DataBuffer.step, DataBuffer.pull, hq] at hx
            simp [hx]
  | push_end => exact ⟨hlen, hne⟩
  | queued_samples => exact ⟨hlen, hne⟩
  | pull_end_reached => exact ⟨hlen, hne⟩

/-- No operation ever clears the end marker. -/
theorem DataBuffer.step_end_monotone {α : Type} (s : DataBuffer α) (op : BufferOp α)
    (h : s.m_end_marked = true) : (s.step op).m_end_marked = true := by
  cases op with
  | push b =>
      by_cases hb : b = []
      · simpa [DataBuffer.step, DataBuffer.push, hb] using h
      · rw [DataBuffer.step, DataBuffer.push_nonempty s b hb]
        exact h
  | pull =>
      cases hq : s.m_queue with
      | nil => simpa [DataBuffer.step, DataBuffer.pull, hq] using h
      | cons b rest => simpa [DataBuffer.step, DataBuffer.pull, hq] using h
  | push_end => rfl
  | queued_samples => exact h
  | pull_end_reached => exact h

theorem DataBuffer.foldl_step_inv {α : Type} (ops : List (BufferOp α)) :
    ∀ s : DataBuffer α, buffer_inv s → buffer_inv (ops.foldl DataBuffer.step s) := by
  induction ops with
  | nil => intro s h; exact h
  | cons op rest ih =>
      intro s h
      exact ih (s.step op) (DataBuffer.step_preserves_inv s op h)

theorem DataBuffer.foldl_step_end_monotone {α : Type} (ops : List (BufferOp α)) :
    ∀ s : DataBuffer α, s.m_end_marked = true →
      (ops.foldl DataBuffer.step s).m_end_marked = true := by
  induction ops with
  | nil => intro s h; exact h
  | cons op rest ih =>
      intro s h
      exact ih (s.step op) (DataBuffer.step_end_monotone s op h)

/-- C2: over every state reachable by a sequence of buffer operations,
`m_qlen` equals the sum of the queued block lengths; the end marker starts
out `false` and, once `true`, stays `true` under every further operation
sequence; and on a reachable state that is closed with count zero a `pull`
does not enter its wait loop and returns the empty sentinel, leaving the
state unchanged. -/
theorem reachable_buffer_invariants {α : Type} (ops extra : List (BufferOp α)) :
    (DataBuffer.run ops).m_qlen =
      (((DataBuffer.run ops).m_queue).map List.length).sum ∧
    (DataBuffer.init α).m_end_marked = false ∧
    ((DataBuffer.run ops).m_end_marked = true →
      (DataBuffer.run (ops ++ extra)).m_end_marked = true) ∧
    ((DataBuffer.run ops).m_end_marked = true → (DataBuffer.run ops).m_qlen = 0 →
      (DataBuffer.run ops).pull_ready = true ∧
      (DataBuffer.run ops).pull = ([], DataBuffer.run ops)) := by
  have hinv : buffer_inv (DataBuffer.run ops) := by
    apply DataBuffer.foldl_step_inv
    exact ⟨rfl, by simp [DataBuffer.init]⟩
  obtain ⟨hlen, hne⟩ := hinv
  refine ⟨hlen, rfl, ?_, ?_⟩
  · intro h
    rw [DataBuffer.run, List.foldl_append]
    exact DataBuffer.foldl_step_end_monotone extra _ h
  · intro hend hzero
    have hq : (DataBuffer.run ops).m_queue = [] := by
      cases hq : (DataBuffer.run ops).m_queue with
      | nil => rfl
      | cons b rest =>
          exfalso
          have hb : b ≠ [] := hne b (by rw [hq]; simp)
          have : (DataBuffer.run ops).m_qlen = b.length + (rest.map List.length).sum := by
            rw [hlen, hq]; simp
          rw [hzero] at this
          have hbpos : 0 < b.length := List.length_pos.mpr hb
          omega
    constructor
    · simp [DataBuffer.pull_ready, hend]
    · simp [DataBuffer.pull, hq]

/-- Concrete run of `reachable_buffer_invariants`: after
`push [1]; pull; push_end` the buffer is consistent, closed and drained, and
a further pull is non-blocking and returns the sentinel. -/
theorem reachable_buffer_invariants_witness :
    (DataBuffer.run [BufferOp.push [(1 : Int)], BufferOp.pull, BufferOp.push_end]).m_qlen =
      (((DataBuffer.run [BufferOp.push [(1 : Int)], BufferOp.pull,
          BufferOp.push_end]).m_queue).map List.length).sum ∧
    (DataBuffer.init Int).m_end_marked = false ∧
    ((DataBuffer.run [BufferOp.push [(1 : Int)], BufferOp.pull,
        BufferOp.push_end]).m_end_marked = true →
      (DataBuffer.run ([BufferOp.push [(1 : Int)], BufferOp.pull, BufferOp.push_end] ++
        [BufferOp.pull, BufferOp.queued_samples])).m_end_marked = true) ∧
    ((DataBuffer.run [BufferOp.push [(1 : Int)], BufferOp.pull,
        BufferOp.push_end]).m_end_marked = true →
      (DataBuffer.run [BufferOp.push [(1 : Int)], BufferOp.pull,
        BufferOp.push_end]).m_qlen = 0 →
      (DataBuffer.run [BufferOp.push [(1 : Int)], BufferOp.pull,
        BufferOp.push_end]).pull_ready = true ∧
      (DataBuffer.run [BufferOp.push [(1 : Int)], BufferOp.pull, BufferOp.push_end]).pull =
        ([], DataBuffer.run [BufferOp.push [(1 : Int)], BufferOp.pull, BufferOp.push_end])) :=
  reachable_buffer_invariants [BufferOp.push [(1 : Int)], BufferOp.pull, BufferOp.push_end]
    [BufferOp.pull, BufferOp.queued_samples]

/-- One-step unfolding of the delivery loop at positive fuel. -/
theorem write_output_data_succ {α : Type} (stop : Nat → Bool) (minfill fuel : Nat)
    (s : DataBuffer α) :
    write_output_data stop minfill (fuel + 1) s =
      if stop 0 then some ([], s)
      else if decide (s.queued_samples = 0) && s.wait_buffer_fill_blocked minfill then none
      else if s.pull_end_reached then some ([], s)
      else
        match write_output_data (fun n => stop (n + 1)) minfill fuel s.pull.2 with
        | none => none
        | some q => some (s.pull.1 :: q.1, q.2) :=
  rfl

/-- With the stop flag never observed, the delivery loop drains a closed
buffer completely: it writes every queued block in order and ends on the
drained-and-closed state. -/
theorem write_output_data_drains {α : Type} :
    ∀ (bs : List (List α)) (minfill : Nat), (∀ b ∈ bs, b ≠ []) →
      write_output_data (fun _ => false) minfill (bs.length + 1)
          ⟨bs, (bs.map List.length).sum, true⟩ =
        some (bs, ⟨[], 0, true⟩)
  | [], minfill, _ => by
      simp [write_output_data, DataBuffer.queued_samples,
        DataBuffer.wait_buffer_fill_blocked, DataBuffer.pull_end_reached]
  | b :: rest, minfill, h => by
      have hb : b ≠ [] := h b (by simp)
      have hrest : ∀ x ∈ rest, x ≠ [] := fun x hx => h x (by simp [hx])
      have ih := write_output_data_drains rest minfill hrest
      have hbpos : 0 < b.length := List.length_pos.mpr hb
      have hsum : ((b :: rest).map List.length).sum
          = b.length + (rest.map List.length).sum := by simp
      have hqne : ((b :: rest).map List.length).sum ≠ 0 := by rw [hsum]; omega
      have hpull : (⟨b :: rest, ((b :: rest).map List.length).sum, true⟩ :
          DataBuffer α).pull = (b, ⟨rest, (rest.map List.length).sum, true⟩) := by
        simp [DataBuffer.pull, hsum]
      have hdec : (decide (((b :: rest).map List.length).sum = 0)) = false :=
        decide_eq_false hqne
      have hqcond : ¬((decide ((⟨b :: rest, ((b :: rest).map List.length).sum, true⟩ :
          DataBuffer α).queued_samples = 0) &&
          (⟨b :: rest, ((b :: rest).map List.length).sum, true⟩ :
            DataBuffer α).wait_buffer_fill_blocked minfill) = true) := by
        simp only [DataBuffer.queued_samples, hdec, Bool.false_and]
        exact Bool.false_ne_true
      have hpercond : ¬((⟨b :: rest, ((b :: rest).map List.length).sum, true⟩ :
          DataBuffer α).pull_end_reached = true) := by
        simp only [DataBuffer.pull_end_reached, hdec, Bool.false_and]
        exact Bool.false_ne_true
      rw [write_output_data_succ]
      rw [if_neg (by simp), if_neg hqcond, if_neg hpercond]
      simp only [hpull, List.length_cons]
      rw [ih]

/-- C3 counterexample: a delivery stage that observes the stop flag set
terminates at the top of its iteration even though the closed output queue
still holds a block; nothing is written and the block is left undelivered
(the queue is not drained: `pull_end_reached` is `false`). -/
theorem write_output_data_stop_discards :
    write_output_data (fun _ => true) 5 3 (⟨[[1]], 1, true⟩ : DataBuffer Int)
        = some ([], ⟨[[1]], 1, true⟩) ∧
    (⟨[[1]], 1, true⟩ : DataBuffer Int).pull_end_reached = false := by
  constructor
  · rfl
  · rfl

/-- C3 amended: the delivery stage terminates either on observing the stop
flag at the top of an iteration - discarding whatever the closed queue still
holds - or on observing the queue drained and closed, in which case it stops
writing; when the stop flag is never observed `true`, every block queued in
the closed output queue is pulled and written to the sink, in FIFO order,
before the stage exits. -/
theorem write_output_data_shutdown {α : Type} (bs : List (List α))
    (minfill fuel : Nat) (stop : Nat → Bool) (hbs : ∀ b ∈ bs, b ≠ []) :
    (write_output_data (fun _ => false) minfill (bs.length + 1)
        ⟨bs, (bs.map List.length).sum, true⟩ = some (bs, ⟨[], 0, true⟩)) ∧
    (stop 0 = true →
      write_output_data stop minfill (fuel + 1) ⟨bs, (bs.map List.length).sum, true⟩
        = some ([], ⟨bs, (bs.map List.length).sum, true⟩)) ∧
    ((bs.map List.length).sum = 0 →
      write_output_data (fun _ => false) minfill (fuel + 1)
          ⟨bs, (bs.map List.length).sum, true⟩
        = some ([], ⟨bs, (bs.map List.length).sum, true⟩)) := by
  refine ⟨write_output_data_drains bs minfill hbs, ?_, ?_⟩
  · intro h
    simp [write_output_data, h]
  · intro h
    simp [write_output_data, DataBuffer.queued_samples,
      DataBuffer.wait_buffer_fill_blocked, DataBuffer.pull_end_reached, h]

/-- Concrete run of `write_output_data_shutdown`: a closed queue holding
`[1,2]` and `[3]` is fully drained when the stop flag stays `false`, and a
stop flag observed `true` ends the stage at once. -/
theorem write_output_data_shutdown_witness :
    (write_output_data (fun _ => false) 7 3
        ⟨[[(1 : Int), 2], [3]], ([[(1 : Int), 2], [3]].map List.length).sum, true⟩
      = some ([[(1 : Int), 2], [3]], ⟨[], 0, true⟩)) ∧
    ((fun _ : Nat => true) 0 = true →
      write_output_data (fun _ => true) 7 3
          ⟨[[(1 : Int), 2], [3]], ([[(1 : Int), 2], [3]].map List.length).sum, true⟩
        = some ([], ⟨[[(1 : Int), 2], [3]], ([[(1 : Int), 2], [3]].map List.length).sum, true⟩)) ∧
    (([[(1 : Int), 2], [3]].map List.length).sum = 0 →
      write_output_data (fun _ => false) 7 3
          ⟨[[(1 : Int), 2], [3]], ([[(1 : Int), 2], [3]].map List.length).sum, true⟩
        = some ([], ⟨[[(1 : Int), 2], [3]], ([[(1 : Int), 2], [3]].map List.length).sum, true⟩)) :=
  write_output_data_shutdown [[(1 : Int), 2], [3]] 7 2 (fun _ => true) (by decide)

/-- From `block >= 1` onward, with no stop request, every non-empty input
block's audio output is forwarded. -/
theorem main_loop_pos {I S : Type} (process : List I → List S) :
    ∀ (bs : List (List I)), (∀ x ∈ bs, x ≠ []) → ∀ k : Nat,
      main_loop (fun _ => false) process (k + 1) bs = bs.map process
  | [], _, k => by simp [main_loop]
  | iq :: rest, h, k => by
      have hiq : iq ≠ [] := h iq (by simp)
      have hrest : ∀ x ∈ rest, x ≠ [] := fun x hx => h x (by simp [hx])
      have ih := main_loop_pos process rest hrest (k + 1)
      simp [main_loop, List.isEmpty_iff, hiq, ih]

/-- C4: with no stop request, the control loop discards the audio produced
at `block == 0` and forwards the audio of every later non-empty input block
in order; in particular a run fed exactly one input block forwards no audio
block at all. -/
theorem control_discards_first_block {I S : Type} (process : List I → List S)
    (bs : List (List I)) (b : List I) (hbs : ∀ x ∈ bs, x ≠ []) (hb : b ≠ []) :
    main_loop (fun _ => false) process 0 bs = (bs.drop 1).map process ∧
    main_loop (fun _ => false) process 0 [b] = [] := by
  constructor
  · cases bs with
    | nil => simp [main_loop]
    | cons iq rest =>
        have hiq : iq ≠ [] := hbs iq (by simp)
        have hrest : ∀ x ∈ rest, x ≠ [] := fun x hx => hbs x (by simp [hx])
        simp [main_loop, List.isEmpty_iff, hiq, main_loop_pos process rest hrest 0]
  · have hb1 : ∀ x ∈ [b], x ≠ [] := by intro x hx; simp at hx; rw [hx]; exact hb
    simp [main_loop, List.isEmpty_iff, hb]

/-- Concrete run of `control_discards_first_block`: three one-sample input
blocks yield the processed forms of the last two only, and a single input
block yields nothing. -/
theorem control_discards_first_block_witness :
    main_loop (fun _ => false) (fun l : List Int => l) 0 [[1], [2], [3]] =
      ([[1], [2], [3]].drop 1).map (fun l : List Int => l) ∧
    main_loop (fun _ => false) (fun l : List Int => l) 0 [[7]] = [] :=
  control_discards_first_block (fun l : List Int => l) [[1], [2], [3]] [7]
    (by decide) (by decide)

/-- The tracker driven by a constant rms `r` sums the geometric series:
`0.05 * r * (1 + 0.95 + ... + 0.95^(n-1))`. -/
theorem audio_level_after_const_sum (r : Rat) :
    ∀ n : Nat, audio_level_after (fun _ => r) n =
      0.05 * r * (Finset.range n).sum (fun k => (0.95 : Rat) ^ k)
  | 0 => by simp [audio_level_after]
  | n + 1 => by
      have ih := audio_level_after_const_sum r n
      have hmul : ∀ x : Rat, (0.95 : Rat) * (0.05 * r * x) = 0.05 * r * (0.95 * x) := by
        intro x; ring
      calc audio_level_after (fun _ => r) (n + 1)
          = 0.95 * (0.05 * r * (Finset.range n).sum (fun k => (0.95 : Rat) ^ k))
              + 0.05 * r := by rw [audio_level_after, ih]
        _ = 0.05 * r * ((Finset.range n).sum (fun k => (0.95 : Rat) ^ k) * 0.95 + 1) := by
              ring
        _ = 0.05 * r * (Finset.range (n + 1)).sum (fun k => (0.95 : Rat) ^ k) := by
              rw [geom_sum_succ]
              ring

/-- C5: per control iteration the tracker update reads
`0.95 * audio_level + 0.05 * rms(audiosamples)` where `audiosamples` is the
block as produced by the demodulator - the `0.5` gain is applied only
afterwards - and, starting from level `0` with a constant per-iteration rms
`r`, after `n` iterations the tracker holds the exact closed form
`0.05 * r * (1 + 0.95 + ... + 0.95^(n-1)) = r * (1 - 0.95^n)`. -/
theorem audio_level_tracker (rms : List Rat → Rat) (audio_level r : Rat)
    (audiosamples : List Rat) (n : Nat) :
    (control_audio_step rms audio_level audiosamples).1
        = 0.95 * audio_level + 0.05 * rms audiosamples ∧
    (control_audio_step rms audio_level audiosamples).2
        = adjust_gain audiosamples 0.5 ∧
    audio_level_after (fun _ => r) n
        = 0.05 * r * (Finset.range n).sum (fun k => (0.95 : Rat) ^ k) ∧
    audio_level_after (fun _ => r) n = r * (1 - (0.95 : Rat) ^ n) := by
  refine ⟨rfl, rfl, audio_level_after_const_sum r n, ?_⟩
  induction n with
  | zero => simp [audio_level_after]
  | succ n ih =>
      rw [audio_level_after, ih, pow_succ]
      ring

/-- The stereo-edge recursion emits exactly the positions whose value
differs from the previous position's value, the seed standing in for the
value before the first position. -/
theorem stereo_log_events_eq_zip :
    ∀ (seq : List Bool) (p : Bool),
      stereo_log_events p seq =
        (seq.zip (p :: seq)).filterMap fun q => if q.1 != q.2 then some q.1 else none
  | [], p => by simp [stereo_log_events]
  | s :: rest, p => by
      have ih := stereo_log_events_eq_zip rest s
      cases s <;> cases p <;>
        simp [stereo_log_events, List.zip_cons_cons, List.filterMap_cons, ih]

/-- C6 counterexample: with `got_stereo` starting at `false` (src/main.cc
line 474), the detected-stereo sequence `true, false, true` produces three
edge-log events - got, lost, got - not two. -/
theorem stereo_scenario_three_events :
    stereo_log_events false [true, false, true] = [true, false, true] ∧
    (stereo_log_events false [true, false, true]).length ≠ 2 := by
  constructor
  · rfl
  · decide

/-- C6 amended: the control loop logs exactly one stereo-edge line per
iteration whose stereo-lock value differs from the previous iteration's
observed value (initially `false`), naming the edge direction, and none
when the value is unchanged; the input sequence `true, false, true` hence
yields exactly three edge-log events - got, lost, got - in that order. -/
theorem stereo_edge_logging (seq : List Bool) :
    stereo_log_events false seq = stereo_edges_spec seq ∧
    stereo_log_events false [true, false, true] = [true, false, true] := by
  constructor
  · rw [stereo_edges_spec, stereo_log_events_eq_zip seq false]
  · rfl

/-- A latched warning never fires again: with `inbuf_length_warning`
already set, no iteration emits. -/
theorem inbuf_warning_emits_latched (ifrate : Rat) :
    ∀ lens : List Nat,
      inbuf_warning_emits ifrate true lens = List.replicate lens.length false
  | [] => by simp [inbuf_warning_emits]
  | q :: rest => by
      simp [inbuf_warning_emits, List.replicate_succ,
        inbuf_warning_emits_latched ifrate rest]

theorem getD_replicate_false : ∀ n i : Nat, (List.replicate n false).getD i false = false
  | 0, _ => by simp [List.getD]
  | _ + 1, 0 => rfl
  | n + 1, i + 1 => getD_replicate_false n i

theorem inbuf_warning_emits_length (ifrate : Rat) :
    ∀ (w : Bool) (lens : List Nat),
      (inbuf_warning_emits ifrate w lens).length = lens.length
  | _, [] => rfl
  | w, q :: rest => by
      simp [inbuf_warning_emits, inbuf_warning_emits_length ifrate _ rest]

/-- C8: over any run of the control loop, the input-backlog warning fires
at most once, and it fires exactly at the first iteration whose observed
input-queue length exceeds `10 * ifrate` - at every other iteration,
recurring or persisting backlog included, nothing is emitted. -/
theorem inbuf_warning_at_most_once (ifrate : Rat) (lens : List Nat) :
    (inbuf_warning_emits ifrate false lens).count true ≤ 1 ∧
    (∀ i, i < lens.length →
      ((inbuf_warning_emits ifrate false lens).getD i false = true ↔
        (inbuf_backlog ifrate (lens.getD i 0) = true ∧
          ∀ j, j < i → inbuf_backlog ifrate (lens.getD j 0) = false))) := by
  induction lens with
  | nil =>
      refine ⟨by simp [inbuf_warning_emits], ?_⟩
      intro i hi
      simp at hi
  | cons q rest ih =>
      obtain ⟨ihc, ihd⟩ := ih
      cases hfire : inbuf_backlog ifrate q with
      | true =>
          constructor
          · simp [inbuf_warning_emits, hfire, inbuf_warning_emits_latched,
              List.count_replicate]
          · intro i hi
            cases i with
            | zero => simp [inbuf_warning_emits, hfire]
            | succ i =>
                simp only [inbuf_warning_emits, hfire, Bool.not_false, Bool.true_and,
                  Bool.or_true, List.getD_cons_succ, inbuf_warning_emits_latched]
                rw [getD_replicate_false]
                constructor
                · intro h; exact absurd h (by simp)
                · rintro ⟨-, hall⟩
                  have := hall 0 (Nat.succ_pos i)
                  rw [List.getD_cons_zero] at this
                  rw [hfire] at this
                  exact absurd this (by simp)
      | false =>
          constructor
          · simpa [inbuf_warning_emits, hfire] using ihc
          · intro i hi
            cases i with
            | zero => simp [inbuf_warning_emits, hfire]
            | succ i =>
                simp only [inbuf_warning_emits, hfire, Bool.not_false, Bool.and_false,
                  Bool.or_false, List.getD_cons_succ]
                rw [ihd i (by simpa using hi)]
                constructor
                · rintro ⟨hc, hall⟩
                  refine ⟨hc, ?_⟩
                  intro j hj
                  cases j with
                  | zero => simpa using hfire
                  | succ j => exact hall j (by omega)
                · rintro ⟨hc, hall⟩
                  refine ⟨hc, ?_⟩
                  intro j hj
                  have := hall (j + 1) (by omega)
                  simpa using this

/-- Concrete run of `inbuf_warning_at_most_once`: with `ifrate = 2` the
observations `5, 100, 30` warn exactly once, at index `1`, the first
length exceeding `20`. -/
theorem inbuf_warning_at_most_once_witness :
    (inbuf_warning_emits 2 false [5, 100, 30]).count true ≤ 1 ∧
    ((inbuf_warning_emits 2 false [5, 100, 30]).getD 1 false = true ↔
      (inbuf_backlog 2 ([5, 100, 30].getD 1 0) = true ∧
        ∀ j, j < 1 → inbuf_backlog 2 ([5, 100, 30].getD j 0) = false)) :=
  ⟨(inbuf_warning_at_most_once 2 [5, 100, 30]).1,
   (inbuf_warning_at_most_once 2 [5, 100, 30]).2 1 (by decide)⟩

/-- C10: with no `-b` given (`bufsecs < 0`), live ALSA playback and raw
output to stdout get an output buffer of exactly one second of audio -
`pcmrate` samples, and a delivery-thread minimum-fill of
`pcmrate * nchannel` - so buffering (and the delivery thread) is enabled
whenever `pcmrate` is positive; raw output to a regular file and WAV output
get `outputbuf_samples = 0`, so no buffering is used and writes go directly
to the sink. -/
theorem output_buffering_defaults (bufsecs : Rat) (outmode : OutputMode)
    (filename : String) (pcmrate : Nat) (stereo : Bool) (hb : bufsecs < 0) :
    ((outmode = OutputMode.MODE_ALSA ∨
        (outmode = OutputMode.MODE_RAW ∧ filename = "-")) →
      outputbuf_samples bufsecs outmode filename pcmrate = pcmrate ∧
      buf_minfill (outputbuf_samples bufsecs outmode filename pcmrate)
          (nchannel stereo) = pcmrate * nchannel stereo ∧
      (0 < pcmrate →
        buffering_enabled (outputbuf_samples bufsecs outmode filename pcmrate) = true)) ∧
    (((outmode = OutputMode.MODE_RAW ∧ filename ≠ "-") ∨
        outmode = OutputMode.MODE_WAV) →
      outputbuf_samples bufsecs outmode filename pcmrate = 0 ∧
      buffering_enabled (outputbuf_samples bufsecs outmode filename pcmrate) = false) := by
  constructor
  · intro hmode
    have hcond : outputbuf_samples bufsecs outmode filename pcmrate = pcmrate := by
      rw [outputbuf_samples, if_pos ⟨hb, hmode⟩]
    refine ⟨hcond, by rw [hcond]; rfl, ?_⟩
    intro hp
    rw [hcond, buffering_enabled]
    simpa using hp
  · intro hmode
    have hnot : ¬(bufsecs < 0 ∧ (outmode = OutputMode.MODE_ALSA ∨
        (outmode = OutputMode.MODE_RAW ∧ filename = "-"))) := by
      rintro ⟨-, halsa | ⟨hraw, hdash⟩⟩
      · rcases hmode with ⟨hm, -⟩ | hm <;> rw [hm] at halsa <;> exact absurd halsa (by simp)
      · rcases hmode with ⟨-, hne⟩ | hm
        · exact hne hdash
        · rw [hm] at hraw; exact absurd hraw (by simp)
    have hnpos : ¬(bufsecs > 0) := by
      intro hpos
      exact absurd (lt_trans hb hpos) (lt_irrefl bufsecs)
    have hcond : outputbuf_samples bufsecs outmode filename pcmrate = 0 := by
      rw [outputbuf_samples, if_neg hnot, if_neg hnpos]
    exact ⟨hcond, by rw [hcond]; rfl⟩

/-- Concrete run of `output_buffering_defaults`: at default settings
(`bufsecs = -1`, ALSA output, 48000 Hz stereo) the buffer defaults to one
second - 48000 samples, minimum-fill 96000 - while without `-b` a WAV
output stays unbuffered. -/
theorem output_buffering_defaults_witness :
    ((OutputMode.MODE_ALSA = OutputMode.MODE_ALSA ∨
        (OutputMode.MODE_ALSA = OutputMode.MODE_RAW ∧ "x" = "-")) →
      outputbuf_samples (-1) OutputMode.MODE_ALSA "x" 48000 = 48000 ∧
      buf_minfill (outputbuf_samples (-1) OutputMode.MODE_ALSA "x" 48000)
          (nchannel true) = 48000 * nchannel true ∧
      (0 < 48000 →
        buffering_enabled (outputbuf_samples (-1) OutputMode.MODE_ALSA "x" 48000) = true)) ∧
    (((OutputMode.MODE_ALSA = OutputMode.MODE_RAW ∧ "x" ≠ "-") ∨
        OutputMode.MODE_ALSA = OutputMode.MODE_WAV) →
      outputbuf_samples (-1) OutputMode.MODE_ALSA "x" 48000 = 0 ∧
      buffering_enabled (outputbuf_samples (-1) OutputMode.MODE_ALSA "x" 48000) = false) :=
  output_buffering_defaults (-1) OutputMode.MODE_ALSA "x" 48000 true (by norm_num)
